import Mathlib

/-!
Shallow embedding of the spending-tracker form component (`src/App.jsx`):
draft state, input normalization, the commit operation, and the derived
view, together with theorems about the specified behavior.
-/

namespace SavingsApp

/-- The draft form state: `formData` in `App.jsx`, fields `category`,
`amount`, `currency`, `note` (all strings, as in the source). -/
structure Draft where
  category : String
  amount : String
  currency : String
  note : String
deriving DecidableEq

/-- A committed spending entry (`newSpending` built in `addSpending`).
The JS number `amount` is modelled as `Option ℚ`: `none` models `NaN`
(what `parseFloat` yields on input without digits), `some v` a finite
value. -/
structure Entry where
  id : Nat
  category : String
  amount : Option ℚ
  currency : String
  note : String
  date : String
deriving DecidableEq

/-- The component state: the ledger `spendings`, the `filterCategory`,
and the draft `formData`. -/
structure AppState where
  spendings : List Entry
  filterCategory : String
  formData : Draft
deriving DecidableEq

/-- The reset form data from `App.jsx` (also the initial value of the
`formData` state hook). -/
def initialFormData : Draft :=
  { category := "General", amount := "", currency := "MXN", note := "" }

/-- Initial component state: empty ledger, filter `All`, default draft. -/
def initialState : AppState :=
  { spendings := [], filterCategory := "All", formData := initialFormData }

/-- Decimal digits folded into a natural number (used by `parseFloat`). -/
def digitsVal (l : List Char) : Nat :=
  l.foldl (fun n c => 10 * n + (c.toNat - 48)) 0

/-- Models JavaScript `parseFloat` on the strings the amount field can
hold (characters `0`-`9` and `.` only): the longest prefix of shape
`digits [. digits]` is parsed; `none` models `NaN` (no digit consumed,
e.g. on `""` or `"."`). Sign, exponent and leading whitespace never occur
in the amount field and are not modelled. -/
def parseFloat (s : String) : Option ℚ :=
  let cs := s.toList
  let intPart := cs.takeWhile Char.isDigit
  let rest := cs.drop intPart.length
  let fracPart :=
    match rest with
    | '.' :: r => r.takeWhile Char.isDigit
    | _ => []
  if intPart = [] ∧ fracPart = [] then none
  else some ((digitsVal intPart : ℚ) + (digitsVal fracPart : ℚ) / (10 : ℚ) ^ fracPart.length)

/-- JS comparison `x <= y` where `x` may be `NaN` (`none`): any comparison
with `NaN` is `false`. -/
def jsLe (x : Option ℚ) (y : ℚ) : Bool :=
  match x with
  | none => false
  | some v => decide (v ≤ y)

/-- JS comparison `x > y` where `x` may be `NaN` (`none`): any comparison
with `NaN` is `false`. -/
def jsGt (x : Option ℚ) (y : ℚ) : Bool :=
  match x with
  | none => false
  | some v => decide (y < v)

/-- Whitespace stripped by JS `String.prototype.trim` (the ASCII cases). -/
def jsIsWhitespace (c : Char) : Bool :=
  c == ' ' || c == '\t' || c == '\n' || c == '\r' ||
    c == Char.ofNat 11 || c == Char.ofNat 12

/-- Models JS `String.prototype.trim`: strip leading and trailing
whitespace. -/
def jsTrim (s : String) : String :=
  String.mk (((s.toList.dropWhile jsIsWhitespace).reverse.dropWhile jsIsWhitespace).reverse)

/-- Models JS `String.prototype.split` with separator `"."`: the pieces of
the character list between occurrences of `'.'` (always at least one
piece, so the result length is the dot count plus one). -/
def splitOnDot : List Char → List (List Char)
  | [] => [[]]
  | c :: cs =>
    let r := splitOnDot cs
    if c = '.' then [] :: r
    else
      match r with
      | [] => [[c]]
      | h :: t => (c :: h) :: t

/-- The `handleInputChange` handler from `App.jsx`: the `amount` branch
strips characters other than digits and `.` and drops the update when the
stripped text splits into more than two parts on `.`; the `note` branch
accepts the value only while its length is at most 140; other fields are
assigned directly (the dynamic `[field]: value` assignment touches no
modelled field for field names outside the draft shape). String length is
code-unit length in JS; all inputs of interest here are ASCII. -/
def handleInputChange (field value : String) (prev : Draft) : Draft :=
  if field = "amount" then
    if (splitOnDot (value.toList.filter fun c => c.isDigit || c == '.')).length > 2 then prev
    else { prev with amount := String.mk (value.toList.filter fun c => c.isDigit || c == '.') }
  else if field = "note" then
    if value.length ≤ 140 then { prev with note := value } else prev
  else if field = "category" then { prev with category := value }
  else if field = "currency" then { prev with currency := value }
  else prev

/-- The `toggleCurrency` handler from `App.jsx`. -/
def toggleCurrency (prev : Draft) : Draft :=
  { prev with currency := if prev.currency = "MXN" then "USD" else "MXN" }

/-- The `addSpending` handler from `App.jsx`. The returned `Bool` records
whether the `alert` fired. The guard is the source's
`!formData.amount || parseFloat(formData.amount) <= 0`, with JS `NaN`
comparison semantics (`NaN <= 0` is `false`); on the commit path the
entry stores `parseFloat(formData.amount)` (possibly `NaN`), the trimmed
note, and the caller-supplied id (`Date.now()`) and rendered date, and the
draft resets to its defaults. -/
def addSpending (id : Nat) (date : String) (st : AppState) : AppState × Bool :=
  if st.formData.amount = "" || jsLe (parseFloat st.formData.amount) 0 then
    (st, true)
  else
    ({ st with
        spendings :=
          { id := id
            category := st.formData.category
            amount := parseFloat st.formData.amount
            currency := st.formData.currency
            note := jsTrim st.formData.note
            date := date } :: st.spendings
        formData := initialFormData }, false)

/-- The `isFormValid` gate from `App.jsx`:
`formData.amount && parseFloat(formData.amount) > 0`, read as the boolean
that enables the submit control (a non-empty string is truthy; `NaN > 0`
is `false`). -/
def isFormValid (fd : Draft) : Bool :=
  (fd.amount != "") && jsGt (parseFloat fd.amount) 0

/-- One user-triggered event on the component: a field edit, the currency
toggle, a filter change, or a submit (which carries the environment-chosen
`Date.now()` id and rendered date). -/
inductive Action where
  | input (field value : String)
  | toggle
  | setFilter (f : String)
  | submit (id : Nat) (date : String)
deriving DecidableEq

/-- One atomic state update per UI event, dispatching to the handlers of
`App.jsx`. -/
def step (st : AppState) : Action → AppState
  | Action.input f v => { st with formData := handleInputChange f v st.formData }
  | Action.toggle => { st with formData := toggleCurrency st.formData }
  | Action.setFilter f => { st with filterCategory := f }
  | Action.submit id date => (addSpending id date st).1

/-- The state after a sequence of UI events from the initial state. -/
def run (acts : List Action) : AppState :=
  acts.foldl step initialState

/-- The derived `filteredSpendings` view from `App.jsx`. -/
def filteredSpendings (st : AppState) : List Entry :=
  if st.filterCategory = "All" then st.spendings
  else st.spendings.filter fun spending => spending.category == st.filterCategory

/-- JS addition where either operand may be `NaN` (`none`): `NaN`
propagates. -/
def jsAdd (x y : Option ℚ) : Option ℚ :=
  match x, y with
  | some a, some b => some (a + b)
  | _, _ => none

/-- The `getTotalByCategory` helper from `App.jsx`: `reduce` of `+` over
the amounts of the matching entries, starting from `0`. -/
def getTotalByCategory (spendings : List Entry) (category : String) : Option ℚ :=
  (if category = "All" then spendings
   else spendings.filter fun spending => spending.category == category).foldl
    (fun total spending => jsAdd total spending.amount) (some 0)

/-- Two-digit zero padding for the fractional part of a fixed-2 rendering. -/
def pad2 (n : Nat) : String :=
  if n < 10 then "0" ++ toString n else toString n

/-- Models `Number.prototype.toFixed(2)` on an exact rational value: round
half away from zero to two decimals and render with exactly two fractional
digits. -/
def toFixed2 (q : ℚ) : String :=
  let n : Nat := (q.num.natAbs * 200 + q.den) / (2 * q.den)
  (if q < 0 then "-" else "") ++ toString (n / 100) ++ "." ++ pad2 (n % 100)

/-- The `formatAmount` helper from `App.jsx`:
`` `$${amount.toFixed(2)} ${currency}` ``; JS renders `NaN.toFixed(2)` as
`"NaN"`. -/
def formatAmount (amount : Option ℚ) (currency : String) : String :=
  match amount with
  | none => "$NaN " ++ currency
  | some q => "$" ++ toFixed2 q ++ " " ++ currency

/-- The total line rendered by `App.jsx`:
`formatAmount(getTotalByCategory(filterCategory), 'MXN')` — the currency
label is the fixed literal `'MXN'`. -/
def totalDisplay (spendings : List Entry) (category : String) : String :=
  formatAmount (getTotalByCategory spendings category) "MXN"

/-- One scripted submission, for stating properties of commit sequences:
choose a category, type an amount, type a note, then invoke the commit
with the environment-chosen id and date. -/
structure Submission where
  category : String
  amount : String
  note : String
  id : Nat
  date : String

/-- The UI events performing one submission. -/
def submitActions (sub : Submission) : List Action :=
  [Action.input "category" sub.category, Action.input "amount" sub.amount,
   Action.input "note" sub.note, Action.submit sub.id sub.date]

/-- The state after performing a list of submissions from the initial
state. -/
def runSubmits (subs : List Submission) : AppState :=
  run (subs.map submitActions).flatten

/-- A valid submission: the typed amount is already normalized (digits
and at most one dot, so the input filter passes it through unchanged) and
parses to a positive value, and the note is within the length bound. -/
def validSubmission (sub : Submission) : Prop :=
  (∀ c ∈ sub.amount.toList, c.isDigit = true ∨ c = '.') ∧
  sub.amount.toList.count '.' ≤ 1 ∧
  (∃ v, parseFloat sub.amount = some v ∧ 0 < v) ∧
  sub.note.length ≤ 140

/-- The ledger entry a valid submission commits. -/
def submissionEntry (sub : Submission) : Entry :=
  { id := sub.id, category := sub.category, amount := parseFloat sub.amount,
    currency := "MXN", note := jsTrim sub.note, date := sub.date }

/-! Basic lemmas about the embedded operations. -/

theorem splitOnDot_ne_nil (l : List Char) : splitOnDot l ≠ [] := by
  induction l with
  | nil => simp [splitOnDot]
  | cons c cs ih =>
    by_cases hc : c = '.'
    · simp [splitOnDot, hc]
    · cases h : splitOnDot cs with
      | nil => exact absurd h ih
      | cons hd tl => simp [splitOnDot, hc, h]

theorem splitOnDot_length (l : List Char) :
    (splitOnDot l).length = l.count '.' + 1 := by
  induction l with
  | nil => rfl
  | cons c cs ih =>
    by_cases hc : c = '.'
    · subst hc
      simp [splitOnDot, List.count_cons, ih]
    · cases h : splitOnDot cs with
      | nil => exact absurd h (splitOnDot_ne_nil cs)
      | cons hd tl =>
        have : tl.length + 1 = cs.count '.' + 1 := by
          have := ih
          rw [h] at this
          simpa using this
        simp only [splitOnDot, hc, if_false, h, List.length_cons, List.count_cons]
        simp [hc, Ne.symm hc] at *
        omega

theorem jsLe_eq_false_iff (x : Option ℚ) (y : ℚ) :
    jsLe x y = false ↔ x = none ∨ ∃ v, x = some v ∧ y < v := by
  cases x with
  | none => simp [jsLe]
  | some v => simp [jsLe, not_le]

theorem jsLe_eq_true_iff (x : Option ℚ) (y : ℚ) :
    jsLe x y = true ↔ ∃ v, x = some v ∧ v ≤ y := by
  cases x with
  | none => simp [jsLe]
  | some v => simp [jsLe]

theorem jsGt_eq_true_iff (x : Option ℚ) (y : ℚ) :
    jsGt x y = true ↔ ∃ v, x = some v ∧ y < v := by
  cases x with
  | none => simp [jsGt]
  | some v => simp [jsGt]

theorem string_mk_toList (s : String) : String.mk s.toList = s := rfl

theorem toList_mk (l : List Char) : (String.mk l).toList = l := rfl

theorem string_append_mxn (x : String) : x ++ " " ++ "MXN" = x ++ " MXN" := by
  apply String.ext
  show (x.data ++ " ".data) ++ "MXN".data = x.data ++ " MXN".data
  rw [List.append_assoc]
  rfl

theorem jsTrim_length_le (s : String) : (jsTrim s).length ≤ s.length := by
  show (((s.toList.dropWhile jsIsWhitespace).reverse.dropWhile jsIsWhitespace).reverse).length
      ≤ s.toList.length
  rw [List.length_reverse]
  calc ((s.toList.dropWhile jsIsWhitespace).reverse.dropWhile jsIsWhitespace).length
      ≤ (s.toList.dropWhile jsIsWhitespace).reverse.length :=
        (List.dropWhile_sublist jsIsWhitespace).length_le
    _ = (s.toList.dropWhile jsIsWhitespace).length := List.length_reverse _
    _ ≤ s.toList.length := (List.dropWhile_sublist jsIsWhitespace).length_le

theorem parseFloat_empty : parseFloat "" = none := rfl

/-! Unfolding lemmas for the branches of `handleInputChange`. -/

theorem hic_amount (v : String) (fd : Draft) :
    handleInputChange "amount" v fd =
      (if (splitOnDot (v.toList.filter fun c => c.isDigit || c == '.')).length > 2 then fd
       else { fd with amount := String.mk (v.toList.filter fun c => c.isDigit || c == '.') }) :=
  rfl

theorem hic_note (v : String) (fd : Draft) :
    handleInputChange "note" v fd =
      (if v.length ≤ 140 then { fd with note := v } else fd) :=
  rfl

theorem hic_category (v : String) (fd : Draft) :
    handleInputChange "category" v fd = { fd with category := v } :=
  rfl

theorem hic_currency (v : String) (fd : Draft) :
    handleInputChange "currency" v fd = { fd with currency := v } :=
  rfl

/-! The reachability invariant of the component state. -/

/-- Well-formedness of an amount field value: only digits and `.`, with at
most one `.`. -/
def amountWF (s : String) : Prop :=
  (∀ c ∈ s.toList, c.isDigit = true ∨ c = '.') ∧ s.toList.count '.' ≤ 1

/-- Well-formedness of a committed entry: the amount is `NaN` or positive,
and the note is within the length bound. -/
def EntryOK (e : Entry) : Prop :=
  (e.amount = none ∨ ∃ v, e.amount = some v ∧ 0 < v) ∧ e.note.length ≤ 140

/-- The state invariant preserved by every UI event. -/
def Inv (st : AppState) : Prop :=
  amountWF st.formData.amount ∧ st.formData.note.length ≤ 140 ∧
    ∀ e ∈ st.spendings, EntryOK e

theorem inv_initial : Inv initialState := by
  refine ⟨⟨?_, ?_⟩, ?_, ?_⟩ <;> simp [initialState, initialFormData]

theorem inv_handleInputChange (f v : String) (fd : Draft)
    (ha : amountWF fd.amount) (hn : fd.note.length ≤ 140) :
    amountWF (handleInputChange f v fd).amount ∧
      (handleInputChange f v fd).note.length ≤ 140 := by
  unfold handleInputChange
  split
  · split
    · exact ⟨ha, hn⟩
    · rename_i hlen
      refine ⟨⟨?_, ?_⟩, hn⟩
      · intro c hc
        have hb := (List.mem_filter.mp hc).2
        simp only [Bool.or_eq_true, beq_iff_eq] at hb
        exact hb
      · have := splitOnDot_length (v.toList.filter fun c => c.isDigit || c == '.')
        dsimp only
        simp only [toList_mk]
        omega
  · split
    · split
      · rename_i hlen
        exact ⟨ha, hlen⟩
      · exact ⟨ha, hn⟩
    · split
      · exact ⟨ha, hn⟩
      · split
        · exact ⟨ha, hn⟩
        · exact ⟨ha, hn⟩

theorem inv_step (st : AppState) (a : Action) (h : Inv st) : Inv (step st a) := by
  obtain ⟨ha, hn, he⟩ := h
  cases a with
  | input f v =>
    obtain ⟨ha2, hn2⟩ := inv_handleInputChange f v st.formData ha hn
    exact ⟨ha2, hn2, he⟩
  | toggle => exact ⟨ha, hn, he⟩
  | setFilter f => exact ⟨ha, hn, he⟩
  | submit id date =>
    show Inv (addSpending id date st).1
    unfold addSpending
    split
    · exact ⟨ha, hn, he⟩
    · rename_i hguard
      simp only [Bool.or_eq_true, decide_eq_true_eq, not_or, Bool.not_eq_true] at hguard
      obtain ⟨hne, hle⟩ := hguard
      refine ⟨⟨by simp [initialFormData], by simp [initialFormData]⟩,
        by simp [initialFormData], ?_⟩
      intro e hmem
      rcases List.mem_cons.mp hmem with hcase | hcase
      · subst hcase
        refine ⟨?_, ?_⟩
        · have := (jsLe_eq_false_iff (parseFloat st.formData.amount) 0).mp hle
          simpa using this
        · exact le_trans (jsTrim_length_le st.formData.note) hn
      · exact he e hcase

theorem inv_run (acts : List Action) : Inv (run acts) := by
  have main : ∀ (l : List Action) (st : AppState), Inv st → Inv (l.foldl step st) := by
    intro l
    induction l with
    | nil => exact fun st h => h
    | cons a as ih => exact fun st h => ih (step st a) (inv_step st a h)
  exact main acts initialState inv_initial

/-! Claim theorems. -/

/-- Shared helper: an amount update whose stripped text contains two or
more dots is dropped, leaving the draft unchanged. -/
theorem amount_update_reject (fd : Draft) (v : String)
    (h : 2 ≤ (v.toList.filter fun c => c.isDigit || c == '.').count '.') :
    handleInputChange "amount" v fd = fd := by
  rw [hic_amount]
  have := splitOnDot_length (v.toList.filter fun c => c.isDigit || c == '.')
  rw [if_pos (by omega)]

/-- C1 counterexample: with the reachable draft amount `"."` — non-empty
but unparsable, so `parseFloat` gives `NaN` — `addSpending` raises no
alert and does change the state, refuting the claimed
notification-and-abort for unparsable amounts. -/
theorem C1_counterexample :
    parseFloat (run [Action.input "amount" "."]).formData.amount = none ∧
    (addSpending 0 "10/11/2025" (run [Action.input "amount" "."])).2 = false ∧
    (addSpending 0 "10/11/2025" (run [Action.input "amount" "."])).1
      ≠ run [Action.input "amount" "."] := by decide

/-- C1 amended: the alert fires iff the amount field is empty or parses to
a value at most zero; on the alert path the ledger and draft are
unchanged; on the non-alert path (which includes the non-empty unparsable
amount `"."`, committing a `NaN` amount) the entry is prepended and the
draft resets, with no notification. -/
theorem C1_commit_validation (st : AppState) (id : Nat) (date : String) :
    ((addSpending id date st).2 = true ↔
      st.formData.amount = "" ∨ ∃ v, parseFloat st.formData.amount = some v ∧ v ≤ 0) ∧
    ((addSpending id date st).2 = true → (addSpending id date st).1 = st) ∧
    ((addSpending id date st).2 = false →
      (addSpending id date st).1.spendings
          = { id := id, category := st.formData.category,
              amount := parseFloat st.formData.amount,
              currency := st.formData.currency,
              note := jsTrim st.formData.note, date := date } :: st.spendings ∧
        (addSpending id date st).1.formData = initialFormData) := by
  unfold addSpending
  split
  · rename_i hguard
    simp only [Bool.or_eq_true, decide_eq_true_eq] at hguard
    refine ⟨iff_of_true rfl ?_, fun _ => rfl, fun hfalse => Bool.noConfusion hfalse⟩
    rcases hguard with h | h
    · exact Or.inl h
    · exact Or.inr ((jsLe_eq_true_iff _ 0).mp h)
  · rename_i hguard
    simp only [Bool.or_eq_true, decide_eq_true_eq, not_or, Bool.not_eq_true] at hguard
    obtain ⟨hne, hle⟩ := hguard
    refine ⟨iff_of_false (by simp) ?_, fun htrue => Bool.noConfusion htrue,
      fun _ => ⟨rfl, rfl⟩⟩
    rintro (h | ⟨v, hv, hv0⟩)
    · exact hne h
    · have : jsLe (parseFloat st.formData.amount) 0 = true :=
        (jsLe_eq_true_iff _ 0).mpr ⟨v, hv, hv0⟩
      rw [this] at hle
      exact Bool.noConfusion hle

theorem C1_commit_validation_witness :
    (addSpending 0 "10/11/2025" initialState).2 = true ∧
    (addSpending 0 "10/11/2025" initialState).1 = initialState :=
  ⟨(C1_commit_validation initialState 0 "10/11/2025").1.mpr (Or.inl rfl),
   (C1_commit_validation initialState 0 "10/11/2025").2.1
     ((C1_commit_validation initialState 0 "10/11/2025").1.mpr (Or.inl rfl))⟩

/-- C2 counterexample: the state reached by typing `.` into the amount
field and invoking the commit programmatically holds a ledger entry whose
amount is `NaN`, not a value greater than zero, refuting the claimed
invariant. -/
theorem C2_counterexample :
    ¬ ∀ e ∈ (run [Action.input "amount" ".", Action.submit 0 "10/11/2025"]).spendings,
        ∃ v, e.amount = some v ∧ 0 < v := by
  intro h
  have hmem : ({ id := 0, category := "General", amount := none, currency := "MXN",
                 note := "", date := "10/11/2025" } : Entry)
      ∈ (run [Action.input "amount" ".", Action.submit 0 "10/11/2025"]).spendings := by
    decide
  obtain ⟨v, hv, hv0⟩ := h _ hmem
  exact Option.noConfusion hv

/-- C2 amended: in every state reachable by any event sequence, every
ledger entry's amount is either `NaN` (reachable only through a non-empty
unparsable draft amount, i.e. `"."`) or a value greater than zero. -/
theorem C2_ledger_amounts (acts : List Action) :
    ∀ e ∈ (run acts).spendings, e.amount = none ∨ ∃ v, e.amount = some v ∧ 0 < v :=
  fun e he => ((inv_run acts).2.2 e he).1

theorem C2_ledger_amounts_witness :
    ({ id := 0, category := "General", amount := none, currency := "MXN",
       note := "", date := "10/11/2025" } : Entry).amount = none ∨
      ∃ v, ({ id := 0, category := "General", amount := none, currency := "MXN",
              note := "", date := "10/11/2025" } : Entry).amount = some v ∧ 0 < v :=
  C2_ledger_amounts [Action.input "amount" ".", Action.submit 0 "10/11/2025"] _ (by decide)

set_option maxRecDepth 10000 in
/-- C3 counterexample: a 141-character note input applied to the initial
draft is rejected wholesale — the note stays empty — rather than being
truncated to its first 140 characters as claimed. -/
theorem C3_counterexample :
    (handleInputChange "note" (String.mk (List.replicate 141 'a')) initialFormData).note
      ≠ String.mk ((String.mk (List.replicate 141 'a')).toList.take 140) := by decide

/-- C3 amended: a note update is accepted verbatim while its length is at
most 140 and rejected wholesale (draft unchanged, no truncation)
otherwise; consequently every committed note has length at most 140. -/
theorem C3_note_limit :
    (∀ (fd : Draft) (s : String), s.length ≤ 140 →
      handleInputChange "note" s fd = { fd with note := s }) ∧
    (∀ (fd : Draft) (s : String), 140 < s.length →
      handleInputChange "note" s fd = fd) ∧
    (∀ (acts : List Action), ∀ e ∈ (run acts).spendings, e.note.length ≤ 140) := by
  refine ⟨fun fd s h => ?_, fun fd s h => ?_,
    fun acts e he => ((inv_run acts).2.2 e he).2⟩
  · rw [hic_note, if_pos h]
  · rw [hic_note, if_neg (by omega)]

set_option maxRecDepth 10000 in
theorem C3_note_limit_witness :
    handleInputChange "note" "Gas" initialFormData = { initialFormData with note := "Gas" } ∧
    handleInputChange "note" (String.mk (List.replicate 141 'c')) initialFormData
      = initialFormData ∧
    ({ id := 0, category := "General", amount := none, currency := "MXN",
       note := "", date := "10/11/2025" } : Entry).note.length ≤ 140 :=
  ⟨C3_note_limit.1 initialFormData "Gas" (by decide),
   C3_note_limit.2.1 initialFormData _ (by decide),
   C3_note_limit.2.2 [Action.input "amount" ".", Action.submit 0 "10/11/2025"] _ (by decide)⟩

/-- C4: typing `123.45.67` into the amount field keystroke by keystroke,
each call receiving the accumulated input text starting from the empty
field, leaves the amount field at `123.45`: the second decimal point is
rejected. -/
theorem C4_second_dot_rejected :
    (run [Action.input "amount" "1", Action.input "amount" "12",
          Action.input "amount" "123", Action.input "amount" "123.",
          Action.input "amount" "123.4", Action.input "amount" "123.45",
          Action.input "amount" "123.45.", Action.input "amount" "123.45.6",
          Action.input "amount" "123.45.67"]).formData.amount = "123.45" := by decide

/-- C5: the submit control is enabled (`isFormValid`) iff the amount field
is a non-empty string that parses, with `parseFloat` semantics, to a value
greater than zero. -/
theorem C5_validity_gate (fd : Draft) :
    isFormValid fd = true ↔
      fd.amount ≠ "" ∧ ∃ v, parseFloat fd.amount = some v ∧ 0 < v := by
  cases h : parseFloat fd.amount with
  | none => simp [isFormValid, jsGt, h]
  | some v => simp [isFormValid, jsGt, h, bne_iff_ne]

theorem C5_validity_gate_witness :
    isFormValid { category := "General", amount := "5", currency := "MXN", note := "" }
      = true :=
  (C5_validity_gate _).mpr ⟨by decide,
    5, by
      show some ((5 : ℚ) + (0 : ℚ) / (10 : ℚ) ^ 0) = some 5
      norm_num,
    by norm_num⟩

/-- C7: after any sequence of events from the initial state, the amount
field contains only decimal digits and at most one dot; moreover each
amount update stores the incoming text stripped to digits and dots when
the stripped text has at most one dot, and is dropped with the prior
draft retained when it has two or more. -/
theorem C7_amount_invariant (acts : List Action) :
    ((∀ c ∈ (run acts).formData.amount.toList, c.isDigit = true ∨ c = '.') ∧
      (run acts).formData.amount.toList.count '.' ≤ 1) ∧
    (∀ (fd : Draft) (v : String),
      (v.toList.filter fun c => c.isDigit || c == '.').count '.' ≤ 1 →
      (handleInputChange "amount" v fd).amount
        = String.mk (v.toList.filter fun c => c.isDigit || c == '.')) ∧
    (∀ (fd : Draft) (v : String),
      2 ≤ (v.toList.filter fun c => c.isDigit || c == '.').count '.' →
      handleInputChange "amount" v fd = fd) := by
  refine ⟨⟨(inv_run acts).1.1, (inv_run acts).1.2⟩, fun fd v h => ?_,
    fun fd v h => amount_update_reject fd v h⟩
  rw [hic_amount]
  have := splitOnDot_length (v.toList.filter fun c => c.isDigit || c == '.')
  rw [if_neg (by omega)]

theorem C7_amount_invariant_witness :
    ('1'.isDigit = true ∨ '1' = '.') ∧
    (handleInputChange "amount" "$1a.5!" initialFormData).amount
      = String.mk ("$1a.5!".toList.filter fun c => c.isDigit || c == '.') ∧
    handleInputChange "amount" "1.2.3" initialFormData = initialFormData :=
  ⟨(C7_amount_invariant [Action.input "amount" "1"]).1.1 '1' (by decide),
   (C7_amount_invariant []).2.1 initialFormData "$1a.5!" (by decide),
   (C7_amount_invariant []).2.2 initialFormData "1.2.3" (by decide)⟩

/-- C10: a rejected update — an amount whose stripped text contains a
second dot, or a note longer than 140 — leaves the entire draft (all four
fields) exactly unchanged. -/
theorem C10_rejected_update_frame (fd : Draft) (v : String) :
    (2 ≤ (v.toList.filter fun c => c.isDigit || c == '.').count '.' →
      handleInputChange "amount" v fd = fd) ∧
    (140 < v.length → handleInputChange "note" v fd = fd) := by
  refine ⟨fun h => amount_update_reject fd v h, fun h => ?_⟩
  rw [hic_note, if_neg (by omega)]

/-- Shared helper: one valid submission performed on a state whose draft
is at the defaults prepends exactly its entry and resets the draft. -/
theorem submission_step (sub : Submission) (st : AppState)
    (hfd : st.formData = initialFormData) (hv : validSubmission sub) :
    (submitActions sub).foldl step st
      = { st with spendings := submissionEntry sub :: st.spendings,
                  formData := initialFormData } := by
  obtain ⟨hchars, hdots, ⟨v, hpf, hv0⟩, hnote⟩ := hv
  have hfilter : sub.amount.toList.filter (fun c => c.isDigit || c == '.')
      = sub.amount.toList := by
    apply List.filter_eq_self.mpr
    intro c hc
    rcases hchars c hc with h | h
    · simp [h]
    · simp [h]
  have hne : sub.amount ≠ "" := by
    intro h
    rw [h, parseFloat_empty] at hpf
    exact Option.noConfusion hpf
  have e1 : step st (Action.input "category" sub.category)
      = { st with formData := ⟨sub.category, "", "MXN", ""⟩ } := by
    show { st with formData := handleInputChange "category" sub.category st.formData } = _
    rw [hfd, hic_category]
    rfl
  have e2 : step { st with formData := ⟨sub.category, "", "MXN", ""⟩ }
        (Action.input "amount" sub.amount)
      = { st with formData := ⟨sub.category, sub.amount, "MXN", ""⟩ } := by
    have hcond : ¬ (splitOnDot sub.amount.toList).length > 2 := by
      have := splitOnDot_length sub.amount.toList
      omega
    show { st with
        formData := handleInputChange "amount" sub.amount ⟨sub.category, "", "MXN", ""⟩ } = _
    rw [hic_amount, hfilter, string_mk_toList, if_neg hcond]
  have e3 : step { st with formData := ⟨sub.category, sub.amount, "MXN", ""⟩ }
        (Action.input "note" sub.note)
      = { st with formData := ⟨sub.category, sub.amount, "MXN", sub.note⟩ } := by
    show { st with
        formData := handleInputChange "note" sub.note
          ⟨sub.category, sub.amount, "MXN", ""⟩ } = _
    rw [hic_note, if_pos hnote]
  have e4 : step { st with formData := ⟨sub.category, sub.amount, "MXN", sub.note⟩ }
        (Action.submit sub.id sub.date)
      = { st with spendings := submissionEntry sub :: st.spendings,
                  formData := initialFormData } := by
    show (addSpending sub.id sub.date
      { st with formData := ⟨sub.category, sub.amount, "MXN", sub.note⟩ }).1 = _
    unfold addSpending
    dsimp only
    rw [hpf]
    rw [if_neg (by
      simp only [Bool.or_eq_true, decide_eq_true_eq, not_or]
      refine ⟨hne, ?_⟩
      simp [jsLe, not_le, hv0])]
    show ({ st with
        spendings := ⟨sub.id, sub.category, some v, "MXN", jsTrim sub.note, sub.date⟩
          :: st.spendings,
        formData := initialFormData } : AppState) = _
    rw [show (⟨sub.id, sub.category, some v, "MXN", jsTrim sub.note, sub.date⟩ : Entry)
      = submissionEntry sub by rw [submissionEntry, hpf]]
  show step (step (step (step st (Action.input "category" sub.category))
      (Action.input "amount" sub.amount)) (Action.input "note" sub.note))
      (Action.submit sub.id sub.date) = _
  rw [e1, e2, e3, e4]

/-- Shared helper: a sequence of valid submissions from a default-draft
state prepends the corresponding entries in reverse order and keeps the
draft at the defaults. -/
theorem runSubmits_spendings (subs : List Submission)
    (h : ∀ sub ∈ subs, validSubmission sub) :
    (runSubmits subs).spendings = (subs.map submissionEntry).reverse := by
  suffices main : ∀ (l : List Submission) (st : AppState), st.formData = initialFormData →
      (∀ sub ∈ l, validSubmission sub) →
      ((l.map submitActions).flatten.foldl step st).spendings
          = (l.map submissionEntry).reverse ++ st.spendings by
    have := main subs initialState rfl h
    simpa [runSubmits, run, initialState] using this
  intro l
  induction l with
  | nil =>
    intro st hfd _
    simp
  | cons sub rest ih =>
    intro st hfd hl
    have hstep := submission_step sub st hfd (hl sub (List.mem_cons_self _ _))
    have hjoin : ((sub :: rest).map submitActions).flatten
        = submitActions sub ++ (rest.map submitActions).flatten := by simp
    rw [hjoin, List.foldl_append, hstep,
      ih _ rfl (fun s hs => hl s (List.mem_cons_of_mem _ hs))]
    simp

/-- C6: a sequence of n valid submissions (each amount parsing to a value
greater than zero) from the empty ledger yields a ledger of length
exactly n holding the submitted entries in reverse submission order, most
recent first; the equality with the full reversed entry list shows no
entry is mutated or removed by later commits. -/
theorem C6_ledger_order (subs : List Submission)
    (h : ∀ sub ∈ subs, validSubmission sub) :
    (runSubmits subs).spendings = (subs.map submissionEntry).reverse ∧
    (runSubmits subs).spendings.length = subs.length := by
  have h1 := runSubmits_spendings subs h
  refine ⟨h1, ?_⟩
  rw [h1]
  simp

theorem C6_ledger_order_witness :
    (runSubmits [{ category := "Personal", amount := "5", note := "Gas",
                   id := 3, date := "10/11/2025" }]).spendings
        = ([{ category := "Personal", amount := "5", note := "Gas",
              id := 3, date := "10/11/2025" }].map submissionEntry).reverse ∧
    (runSubmits [{ category := "Personal", amount := "5", note := "Gas",
                   id := 3, date := "10/11/2025" }]).spendings.length
        = [({ category := "Personal", amount := "5", note := "Gas",
              id := 3, date := "10/11/2025" } : Submission)].length :=
  C6_ledger_order _ (by
    intro sub hsub
    simp only [List.mem_singleton] at hsub
    subst hsub
    refine ⟨by decide, by decide, ⟨5, ?_, by norm_num⟩, by decide⟩
    show some ((5 : ℚ) + (0 : ℚ) / (10 : ℚ) ^ 0) = some 5
    norm_num)

/-- Shared helper: the JS fold of `+` over a list of entries with no
`NaN` amount computes the arithmetic sum of the amounts. -/
theorem foldl_jsAdd_finite (l : List Entry) (a : ℚ)
    (h : ∀ e ∈ l, e.amount ≠ none) :
    l.foldl (fun total spending => jsAdd total spending.amount) (some a)
      = some (a + (l.filterMap Entry.amount).sum) := by
  induction l generalizing a with
  | nil => simp
  | cons e es ih =>
    obtain ⟨v, hv⟩ : ∃ v, e.amount = some v := by
      cases hcase : e.amount with
      | none => exact absurd hcase (h e (List.mem_cons_self _ _))
      | some v => exact ⟨v, rfl⟩
    have hes : ∀ x ∈ es, x.amount ≠ none := fun x hx => h x (List.mem_cons_of_mem _ hx)
    rw [List.foldl_cons]
    rw [show jsAdd (some a) e.amount = some (a + v) by rw [hv]; rfl]
    rw [ih (a + v) hes]
    simp [List.filterMap_cons, hv, add_assoc]

/-- C8: for every ledger of numeric (non-NaN) entries and every requested
category, the computed total is the arithmetic sum of `amount` over
exactly the matching entries (all entries when the category is `All`),
and the displayed total renders that sum to two decimals with the fixed
`MXN` suffix regardless of the entries' currencies; an empty matching
subset displays `$0.00 MXN`. -/
theorem C8_category_total (spendings : List Entry) (c : String)
    (h : ∀ e ∈ spendings, e.amount ≠ none) :
    getTotalByCategory spendings c
        = some (((if c = "All" then spendings
            else spendings.filter fun e => e.category == c).filterMap Entry.amount).sum) ∧
    totalDisplay spendings c
        = "$" ++ toFixed2 (((if c = "All" then spendings
            else spendings.filter fun e => e.category == c).filterMap Entry.amount).sum)
          ++ " MXN" ∧
    ((if c = "All" then spendings else spendings.filter fun e => e.category == c) = [] →
      totalDisplay spendings c = "$0.00 MXN") := by
  have hmatch : ∀ e ∈ (if c = "All" then spendings
      else spendings.filter fun e => e.category == c), e.amount ≠ none := by
    intro e he
    by_cases hc : c = "All"
    · rw [if_pos hc] at he
      exact h e he
    · rw [if_neg hc] at he
      exact h e (List.mem_of_mem_filter he)
  have hfold := foldl_jsAdd_finite _ 0 hmatch
  rw [zero_add] at hfold
  have h1 : getTotalByCategory spendings c
      = some (((if c = "All" then spendings
          else spendings.filter fun e => e.category == c).filterMap Entry.amount).sum) := by
    rw [getTotalByCategory]
    exact hfold
  refine ⟨h1, ?_, ?_⟩
  · rw [totalDisplay, h1, ← string_append_mxn]
    rfl
  · intro hempty
    rw [totalDisplay, h1, hempty]
    simp only [List.filterMap_nil, List.sum_nil]
    decide

theorem C8_category_total_witness :
    totalDisplay ([] : List Entry) "All" = "$0.00 MXN" :=
  (C8_category_total [] "All" (by simp)).2.2 (by decide)

/-- C9: `handleInputChange` stores any category string unvalidated, and a
subsequent commit with a valid amount places an entry carrying that
arbitrary category in the ledger: the category enumeration is enforced
only by the closed UI selector, not by the state logic. -/
theorem C9_category_unvalidated (v : String) :
    (run [Action.input "category" v]).formData.category = v ∧
    (run [Action.input "category" v, Action.input "amount" "5",
          Action.submit 7 "10/11/2025"]).spendings
      = [{ id := 7, category := v, amount := some 5, currency := "MXN",
           note := "", date := "10/11/2025" }] := by
  have h5 : parseFloat "5" = some 5 := by
    show some ((5 : ℚ) + (0 : ℚ) / (10 : ℚ) ^ 0) = some 5
    norm_num
  refine ⟨rfl, ?_⟩
  show (addSpending 7 "10/11/2025"
      { spendings := [], filterCategory := "All",
        formData := { category := v, amount := "5", currency := "MXN",
                      note := "" } }).1.spendings = _
  unfold addSpending
  dsimp only
  rw [h5]
  rw [if_neg (by decide)]
  rfl

set_option maxRecDepth 10000 in
theorem C10_rejected_update_frame_witness :
    handleInputChange "amount" "1.2.3"
        { category := "Auto", amount := "7", currency := "USD", note := "x" }
      = { category := "Auto", amount := "7", currency := "USD", note := "x" } ∧
    handleInputChange "note" (String.mk (List.replicate 141 'b'))
        { category := "Auto", amount := "7", currency := "USD", note := "x" }
      = { category := "Auto", amount := "7", currency := "USD", note := "x" } :=
  ⟨(C10_rejected_update_frame _ _).1 (by decide),
   (C10_rejected_update_frame _ _).2 (by decide)⟩

end SavingsApp

